import Mathlib

/-!
Verification of the `riff` edit-script generator (`src/levenshtein.rs`,
`src/changes.rs`) against its natural-language specification.

The Rust function `levenshtein_diff(text1, text2)` builds a dynamic-programming
cost matrix and backtracks through it, emitting a list of `Change` operations.
We embed it shallowly: Rust strings become `List Char`; crucially, Rust's
`str::len` counts UTF-8 *bytes* while `str::chars().nth(k)` indexes *scalar
values*, so the embedding models the byte length (`utf8Len`) separately from
scalar indexing (`List.get?`, which yields `none` past the end, matching
`Iterator::nth` returning `None`).  `anyhow::Result` becomes `Except String`.
The backtracking `while` loop is modelled with an explicit fuel parameter;
`levenshtein_diff` supplies `utf8Len text1 + utf8Len text2`, an upper bound on
the iteration count (each iteration decrements `i` or `j`), so the fuel is
never exhausted on the arguments the function actually passes.
-/

/-- The `Change` enum of `src/changes.rs`: `Insertion(char, usize)`,
`Deletion(char, usize)`, `Substitution(char, char, usize)`. -/
inductive Change where
  | Insertion : Char → Nat → Change
  | Deletion : Char → Nat → Change
  | Substitution : Char → Char → Nat → Change
deriving DecidableEq

/-- Rust `str::len`: the length of the string in UTF-8 bytes (not scalar
values). -/
def utf8Len (s : List Char) : Nat := (s.map Char.utf8Size).sum

/-- Read `matrix[i][j]` of a row-major matrix (all reads performed by the
source are in bounds, so the out-of-bounds default is irrelevant). -/
def getCell (m : List (List Nat)) (i j : Nat) : Nat := (m.getD i []).getD j 0

/-- Write `matrix[i][j] = v` in a row-major matrix. -/
def setCell (m : List (List Nat)) (i j v : Nat) : List (List Nat) :=
  m.set i ((m.getD i []).set j v)

/-- The matrix allocation and the two boundary-initialisation loops of
`levenshtein_diff`: `vec![vec![0; text2.len() + 1]; text1.len() + 1]`, then
`row[0] = i` for every row and `matrix[0][j] = j` for every column. -/
def initMatrix (t1 t2 : List Char) : List (List Nat) :=
  let m0 := List.replicate (utf8Len t1 + 1) (List.replicate (utf8Len t2 + 1) 0)
  let m1 := (List.range (utf8Len t1 + 1)).foldl (fun m i => setCell m i 0 i) m0
  (List.range (utf8Len t2 + 1)).foldl (fun m j => setCell m 0 j j) m1

/-- The fill loops of `levenshtein_diff`: for `i in 1..=text1.len()`,
`j in 1..=text2.len()` (byte lengths!), compare `text1.chars().nth(i-1)` with
`text2.chars().nth(j-1)` (scalar indexing, `Option` equality) and set
`matrix[i][j]` accordingly.  `List.range` indices run over `i0 = i - 1`,
`j0 = j - 1`. -/
def fillMatrix (t1 t2 : List Char) : List (List Nat) :=
  (List.range (utf8Len t1)).foldl (fun m i0 =>
    (List.range (utf8Len t2)).foldl (fun m j0 =>
      if t1.get? i0 = t2.get? j0 then
        setCell m (i0+1) (j0+1) (getCell m i0 j0)
      else
        setCell m (i0+1) (j0+1)
          (1 + min (getCell m i0 (j0+1)) (min (getCell m (i0+1) j0) (getCell m i0 j0))))
      m)
    (initMatrix t1 t2)

/-- The backtracking `while i != 0 && j != 0` loop of `levenshtein_diff`,
with the cursor pair written `(i+1, j+1)` for the Rust `(i, j)` so that
`i - 1` is the Lean `i` (the `checked_sub(1)` calls are applied to values
that are at least 1 inside the loop and therefore never fail; they are
modelled by the direct predecessor).  `changes.push(op)` appends at the end
of the accumulator.  The `ok_or(anyhow!("Underflow Error"))?` on the
`chars().nth(..)` lookups is modelled by matching on the `Option`. -/
def backtrack (t1 t2 : List Char) (m : List (List Nat)) :
    Nat → Nat → Nat → List Change → Except String (List Change)
  | _, 0, _, acc => .ok acc
  | _, _+1, 0, acc => .ok acc
  | 0, _+1, _+1, acc => .ok acc
  | fuel+1, i+1, j+1, acc =>
    if t1.get? i = t2.get? j then
      backtrack t1 t2 m fuel i j acc
    else if getCell m i (j+1) < getCell m (i+1) j then
      match t1.get? i with
      | some c => backtrack t1 t2 m fuel i (j+1) (acc ++ [Change.Deletion c i])
      | none => .error "Underflow Error"
    else if getCell m (i+1) j < getCell m i (j+1) then
      match t2.get? j with
      | some c => backtrack t1 t2 m fuel (i+1) j (acc ++ [Change.Insertion c j])
      | none => .error "Underflow Error"
    else
      match t1.get? i, t2.get? j with
      | some c1, some c2 => backtrack t1 t2 m fuel i j (acc ++ [Change.Substitution c1 c2 i])
      | _, _ => .error "Underflow Error"

/-- `pub fn levenshtein_diff(text1: &str, text2: &str) -> anyhow::Result<Vec<Change>>`:
build the matrix, then backtrack from `(text1.len(), text2.len())` (byte
lengths) with an empty change list. -/
def levenshtein_diff (t1 t2 : List Char) : Except String (List Change) :=
  backtrack t1 t2 (fillMatrix t1 t2) (utf8Len t1 + utf8Len t2) (utf8Len t1) (utf8Len t2) []

/-- Modelled from the spec: the effect of one edit operation on a character
sequence, as the round-trip law describes it — an insertion inserts the given
character at the given text2 index, a deletion removes the character at the
given text1 index, a substitution replaces the character at the given text1
index. -/
def applyChange (s : List Char) : Change → List Char
  | .Insertion c p => s.take p ++ c :: s.drop p
  | .Deletion _ p => s.take p ++ s.drop (p+1)
  | .Substitution _ c p => s.set p c

/-- Modelled from the spec: apply a returned edit script to `text1` in the
reverse of the order backtracking emitted it (earliest position to latest). -/
def applyScript (s : List Char) (ops : List Change) : List Char :=
  ops.reverse.foldl applyChange s

/-- The position an operation records: the text1 index for deletions and
substitutions, the text2 index for insertions. -/
def posOf : Change → Nat
  | .Insertion _ p => p
  | .Deletion _ p => p
  | .Substitution _ _ p => p

/-- The subsequence of recorded positions contributed by deletions and
substitutions (text1 indices), in emission order. -/
def dsPos : List Change → List Nat
  | [] => []
  | .Deletion _ p :: r => p :: dsPos r
  | .Substitution _ _ p :: r => p :: dsPos r
  | .Insertion _ _ :: r => dsPos r

/-- The subsequence of recorded positions contributed by insertions
(text2 indices), in emission order. -/
def insPos : List Change → List Nat
  | [] => []
  | .Insertion _ p :: r => p :: insPos r
  | .Deletion _ _ :: r => insPos r
  | .Substitution _ _ _ :: r => insPos r

/-- `nonIncList l = true` iff `l` is monotonically non-increasing. -/
def nonIncList : List Nat → Bool
  | [] => true
  | [_] => true
  | a :: b :: r => decide (b ≤ a) && nonIncList (b :: r)

/-- `strictDecList l = true` iff `l` is strictly decreasing. -/
def strictDecList : List Nat → Bool
  | [] => true
  | [_] => true
  | a :: b :: r => decide (b < a) && strictDecList (b :: r)

/-- An operation's payload character actually occurs at its recorded
position: deletions and substitutions carry the text1 character at their
text1 index, insertions carry the text2 character at their text2 index. -/
def opFaithful (t1 t2 : List Char) : Change → Prop
  | .Deletion c p => t1.get? p = some c
  | .Insertion c p => t2.get? p = some c
  | .Substitution c _ p => t1.get? p = some c

/-- A substitution never replaces a character by itself. -/
def subNe : Change → Prop
  | .Substitution c1 c2 _ => c1 ≠ c2
  | _ => True

/-- Modelled from the spec: one backtracking step at cursor `(i+1, j+1)`
(both nonzero), as the claim describes it, given the characters `c1` at text1
index `i` and `c2` at text2 index `j`: if they are equal, record nothing and
decrement both; otherwise compare `cell(i-1, j)` with `cell(i, j-1)` of the
distance matrix and record a Deletion, an Insertion, or a Substitution. -/
def stepClaim (t1 t2 : List Char) (m : List (List Nat)) (fuel i j : Nat)
    (acc : List Change) (c1 c2 : Char) : Except String (List Change) :=
  if c1 = c2 then
    backtrack t1 t2 m fuel i j acc
  else if getCell m i (j+1) < getCell m (i+1) j then
    backtrack t1 t2 m fuel i (j+1) (acc ++ [Change.Deletion c1 i])
  else if getCell m (i+1) j < getCell m i (j+1) then
    backtrack t1 t2 m fuel (i+1) j (acc ++ [Change.Insertion c2 j])
  else
    backtrack t1 t2 m fuel i j (acc ++ [Change.Substitution c1 c2 i])

theorem backtrack_zero_i (t1 t2 : List Char) (m : List (List Nat)) (fuel j : Nat)
    (acc : List Change) : backtrack t1 t2 m fuel 0 j acc = .ok acc := by
  cases fuel <;> rfl

theorem backtrack_zero_j (t1 t2 : List Char) (m : List (List Nat)) (fuel i : Nat)
    (acc : List Change) : backtrack t1 t2 m fuel i 0 acc = .ok acc := by
  cases fuel <;> cases i <;> rfl

theorem backtrack_diag (t : List Char) (m : List (List Nat)) :
    ∀ (fuel i : Nat) (acc : List Change), backtrack t t m fuel i i acc = .ok acc := by
  intro fuel
  induction fuel with
  | zero => intro i acc; cases i <;> rfl
  | succ fuel ih =>
    intro i acc
    cases i with
    | zero => exact backtrack_zero_i t t m _ _ acc
    | succ i =>
      show (if t.get? i = t.get? i then backtrack t t m fuel i i acc else _) = .ok acc
      rw [if_pos rfl]
      exact ih i acc

theorem strictDecList_cons (p : Nat) (l : List Nat) (hb : ∀ q ∈ l, q < p)
    (hl : strictDecList l = true) : strictDecList (p :: l) = true := by
  cases l with
  | nil => rfl
  | cons q r =>
    show (decide (q < p) && strictDecList (q :: r)) = true
    rw [hl, decide_eq_true (hb q (List.mem_cons_self q r))]
    rfl

theorem backtrack_ok_structure (t1 t2 : List Char) (m : List (List Nat)) :
    ∀ (fuel i j : Nat) (acc s : List Change),
      backtrack t1 t2 m fuel i j acc = .ok s →
      ∃ r, s = acc ++ r ∧
        (∀ op ∈ r, opFaithful t1 t2 op ∧ subNe op) ∧
        strictDecList (dsPos r) = true ∧ (∀ p ∈ dsPos r, p < i) ∧
        strictDecList (insPos r) = true ∧ (∀ p ∈ insPos r, p < j) := by
  intro fuel
  induction fuel with
  | zero =>
    intro i j acc s h
    have hs : s = acc := by
      cases i with
      | zero => rw [backtrack_zero_i] at h; exact (Except.ok.injEq _ _).mp h.symm
      | succ i =>
        cases j with
        | zero => rw [backtrack_zero_j] at h; exact (Except.ok.injEq _ _).mp h.symm
        | succ j => exact ((Except.ok.injEq _ _).mp h.symm)
    exact ⟨[], by simp [hs], fun op hop => absurd hop (List.not_mem_nil op), rfl,
      fun p hp => absurd hp (List.not_mem_nil p), rfl, fun p hp => absurd hp (List.not_mem_nil p)⟩
  | succ fuel ih =>
    intro i j acc s h
    cases i with
    | zero =>
      rw [backtrack_zero_i] at h
      have hs : s = acc := (Except.ok.injEq _ _).mp h.symm
      exact ⟨[], by simp [hs], fun op hop => absurd hop (List.not_mem_nil op), rfl,
      fun p hp => absurd hp (List.not_mem_nil p), rfl, fun p hp => absurd hp (List.not_mem_nil p)⟩
    | succ i =>
      cases j with
      | zero =>
        rw [backtrack_zero_j] at h
        have hs : s = acc := (Except.ok.injEq _ _).mp h.symm
        exact ⟨[], by simp [hs], fun op hop => absurd hop (List.not_mem_nil op), rfl,
      fun p hp => absurd hp (List.not_mem_nil p), rfl, fun p hp => absurd hp (List.not_mem_nil p)⟩
      | succ j =>
        have h' : (if t1.get? i = t2.get? j then
              backtrack t1 t2 m fuel i j acc
            else if getCell m i (j+1) < getCell m (i+1) j then
              match t1.get? i with
              | some c => backtrack t1 t2 m fuel i (j+1) (acc ++ [Change.Deletion c i])
              | none => .error "Underflow Error"
            else if getCell m (i+1) j < getCell m i (j+1) then
              match t2.get? j with
              | some c => backtrack t1 t2 m fuel (i+1) j (acc ++ [Change.Insertion c j])
              | none => .error "Underflow Error"
            else
              match t1.get? i, t2.get? j with
              | some c1, some c2 =>
                  backtrack t1 t2 m fuel i j (acc ++ [Change.Substitution c1 c2 i])
              | _, _ => .error "Underflow Error") = .ok s := h
        by_cases hc : t1.get? i = t2.get? j
        · rw [if_pos hc] at h'
          obtain ⟨r, hs, hops, hds, hdb, his, hib⟩ := ih i j acc s h'
          exact ⟨r, hs, hops, hds, fun p hp => Nat.lt_succ_of_lt (hdb p hp),
            his, fun p hp => Nat.lt_succ_of_lt (hib p hp)⟩
        · rw [if_neg hc] at h'
          by_cases h1 : getCell m i (j+1) < getCell m (i+1) j
          · rw [if_pos h1] at h'
            cases hg : t1.get? i with
            | none => rw [hg] at h'; simp at h'
            | some c =>
              rw [hg] at h'
              obtain ⟨r, hs, hops, hds, hdb, his, hib⟩ :=
                ih i (j+1) (acc ++ [Change.Deletion c i]) s h'
              refine ⟨Change.Deletion c i :: r, by simp [hs], ?_, ?_, ?_, his, hib⟩
              · intro op hop
                rcases List.mem_cons.mp hop with hop | hop
                · subst hop; exact ⟨hg, trivial⟩
                · exact hops op hop
              · exact strictDecList_cons i (dsPos r) hdb hds
              · intro p hp
                rcases List.mem_cons.mp hp with hp | hp
                · omega
                · exact Nat.lt_succ_of_lt (hdb p hp)
          · rw [if_neg h1] at h'
            by_cases h2 : getCell m (i+1) j < getCell m i (j+1)
            · rw [if_pos h2] at h'
              cases hg : t2.get? j with
              | none => rw [hg] at h'; simp at h'
              | some c =>
                rw [hg] at h'
                obtain ⟨r, hs, hops, hds, hdb, his, hib⟩ :=
                  ih (i+1) j (acc ++ [Change.Insertion c j]) s h'
                refine ⟨Change.Insertion c j :: r, by simp [hs], ?_, hds, hdb, ?_, ?_⟩
                · intro op hop
                  rcases List.mem_cons.mp hop with hop | hop
                  · subst hop; exact ⟨hg, trivial⟩
                  · exact hops op hop
                · exact strictDecList_cons j (insPos r) hib his
                · intro p hp
                  rcases List.mem_cons.mp hp with hp | hp
                  · omega
                  · exact Nat.lt_succ_of_lt (hib p hp)
            · rw [if_neg h2] at h'
              cases hg1 : t1.get? i with
              | none =>
                rw [hg1] at h'
                cases hg2 : t2.get? j with
                | none => rw [hg2] at h'; simp at h'
                | some c2 => rw [hg2] at h'; simp at h'
              | some c1 =>
                rw [hg1] at h'
                cases hg2 : t2.get? j with
                | none => rw [hg2] at h'; simp at h'
                | some c2 =>
                  rw [hg2] at h'
                  have hne : c1 ≠ c2 := by
                    intro he
                    exact hc (by rw [hg1, hg2, he])
                  obtain ⟨r, hs, hops, hds, hdb, his, hib⟩ :=
                    ih i j (acc ++ [Change.Substitution c1 c2 i]) s h'
                  refine ⟨Change.Substitution c1 c2 i :: r, by simp [hs], ?_, ?_, ?_, his,
                    fun p hp => Nat.lt_succ_of_lt (hib p hp)⟩
                  · intro op hop
                    rcases List.mem_cons.mp hop with hop | hop
                    · subst hop; exact ⟨hg1, hne⟩
                    · exact hops op hop
                  · exact strictDecList_cons i (dsPos r) hdb hds
                  · intro p hp
                    rcases List.mem_cons.mp hp with hp | hp
                    · omega
                    · exact Nat.lt_succ_of_lt (hdb p hp)

/-- Claim C1 (refuted by the code; the spec's round-trip law is the intent):
at text1 = "abc", text2 = "xabc" the function returns `Ok` with an empty
script, yet applying that script to text1 yields "abc", not text2 — the
backtracking loop silently drops the remaining prefix when a cursor
reaches 0, so the round-trip law fails. -/
theorem c1_roundtrip_fails_on_abc_xabc :
    levenshtein_diff ['a', 'b', 'c'] ['x', 'a', 'b', 'c'] = .ok [] ∧
    applyScript ['a', 'b', 'c'] [] = ['a', 'b', 'c'] ∧
    (['a', 'b', 'c'] : List Char) ≠ ['x', 'a', 'b', 'c'] :=
  ⟨rfl, rfl, by decide⟩

/-- Claim C2 (refuted by the code; the spec's totality is the intent): the
"Underflow Error" branches are reachable.  On text1 = "é" (one scalar, two
bytes) and text2 = "a", the byte-sized cursor starts at 2, the character
lookup `chars().nth(1)` is `None`, and the function returns an error. -/
theorem c2_underflow_error_reachable :
    levenshtein_diff ['é'] ['a'] = .error "Underflow Error" :=
  rfl

/-- Claim C3 (refuted by the code; the spec's scalar-value dimensions are the
intent): for text1 = "é", text2 = "a" the built matrix has 3 rows — byte
length 2 plus 1 — while the claimed dimension M+1 in scalar values is 2. -/
theorem c3_matrix_dimensions_are_bytes :
    (fillMatrix ['é'] ['a']).length = 3 ∧
    (['é'] : List Char).length + 1 = 2 ∧ (3 : Nat) ≠ 2 :=
  ⟨rfl, rfl, by decide⟩

/-- Claim C4 (confirmed): at every backtracking step with both cursor indices
nonzero and with characters `c1` at text1 index `i` and `c2` at text2 index
`j`, the code's step is exactly the step the claim describes: no operation and
a double decrement on equal characters, otherwise a Deletion of `c1` at `i`
when `cell(i-1,j) < cell(i,j-1)`, an Insertion of `c2` at `j` when
`cell(i-1,j) > cell(i,j-1)`, and a Substitution of `c1` by `c2` at `i` on a
tie. -/
theorem c4_step_follows_claim (t1 t2 : List Char) (fuel i j : Nat)
    (acc : List Change) (c1 c2 : Char)
    (h1 : t1.get? i = some c1) (h2 : t2.get? j = some c2) :
    backtrack t1 t2 (fillMatrix t1 t2) (fuel+1) (i+1) (j+1) acc =
      stepClaim t1 t2 (fillMatrix t1 t2) fuel i j acc c1 c2 := by
  have hs : backtrack t1 t2 (fillMatrix t1 t2) (fuel+1) (i+1) (j+1) acc =
      (if t1.get? i = t2.get? j then
        backtrack t1 t2 (fillMatrix t1 t2) fuel i j acc
      else if getCell (fillMatrix t1 t2) i (j+1) < getCell (fillMatrix t1 t2) (i+1) j then
        match t1.get? i with
        | some c => backtrack t1 t2 (fillMatrix t1 t2) fuel i (j+1) (acc ++ [Change.Deletion c i])
        | none => .error "Underflow Error"
      else if getCell (fillMatrix t1 t2) (i+1) j < getCell (fillMatrix t1 t2) i (j+1) then
        match t2.get? j with
        | some c => backtrack t1 t2 (fillMatrix t1 t2) fuel (i+1) j (acc ++ [Change.Insertion c j])
        | none => .error "Underflow Error"
      else
        match t1.get? i, t2.get? j with
        | some c1, some c2 =>
            backtrack t1 t2 (fillMatrix t1 t2) fuel i j (acc ++ [Change.Substitution c1 c2 i])
        | _, _ => .error "Underflow Error") := rfl
  rw [hs]
  simp only [h1, h2, Option.some.injEq, stepClaim]

/-- Witness for C4 at text1 = "a", text2 = "b", cursor (1, 1). -/
theorem c4_step_follows_claim_witness :
    backtrack ['a'] ['b'] (fillMatrix ['a'] ['b']) 1 1 1 [] =
      stepClaim ['a'] ['b'] (fillMatrix ['a'] ['b']) 0 0 0 [] 'a' 'b' :=
  c4_step_follows_claim ['a'] ['b'] 0 0 0 [] 'a' 'b' rfl rfl

/-- Claim C5 (refuted by the code; the spec's operation count is the intent):
on text1 = "ada", text2 = "dad" the function returns three substitutions while
cell (M, N) of the matrix — the edit distance — is 2: the tie-break records a
substitution even when the diagonal predecessor did not decrease the cost. -/
theorem c5_script_length_exceeds_distance :
    levenshtein_diff ['a', 'd', 'a'] ['d', 'a', 'd'] =
      .ok [Change.Substitution 'a' 'd' 2, Change.Substitution 'd' 'a' 1,
           Change.Substitution 'a' 'd' 0] ∧
    getCell (fillMatrix ['a', 'd', 'a'] ['d', 'a', 'd'])
      (utf8Len ['a', 'd', 'a']) (utf8Len ['d', 'a', 'd']) = 2 ∧
    [Change.Substitution 'a' 'd' 2, Change.Substitution 'd' 'a' 1,
      Change.Substitution 'a' 'd' 0].length = 3 ∧ (3 : Nat) ≠ 2 :=
  ⟨rfl, rfl, rfl, by decide⟩

/-- Claim C6 (confirmed): the backtracking loop runs only while both cursor
indices are nonzero — whenever a cursor index is 0 the loop returns the
accumulated script unchanged, so the remaining prefix of the other sequence
produces no operations — and consequently an empty text1 or an empty text2
yields `Ok` of an empty script. -/
theorem c6_loop_guard_and_empty_inputs :
    (∀ (t1 t2 : List Char) (m : List (List Nat)) (fuel j : Nat) (acc : List Change),
      backtrack t1 t2 m fuel 0 j acc = .ok acc) ∧
    (∀ (t1 t2 : List Char) (m : List (List Nat)) (fuel i : Nat) (acc : List Change),
      backtrack t1 t2 m fuel i 0 acc = .ok acc) ∧
    (∀ t2 : List Char, levenshtein_diff [] t2 = .ok []) ∧
    (∀ t1 : List Char, levenshtein_diff t1 [] = .ok []) := by
  refine ⟨backtrack_zero_i, backtrack_zero_j, fun t2 => ?_, fun t1 => ?_⟩
  · exact backtrack_zero_i [] t2 (fillMatrix [] t2) (utf8Len [] + utf8Len t2) (utf8Len t2) []
  · exact backtrack_zero_j t1 [] (fillMatrix t1 []) (utf8Len t1 + utf8Len []) (utf8Len t1) []

/-- Claim C7 (confirmed): on identical inputs every backtracking step compares
a character with itself, takes the match branch, and records nothing, so
`levenshtein_diff text1 text1` is `Ok` of the empty script — in particular on
two empty inputs. -/
theorem c7_identical_inputs_empty_script (t : List Char) :
    levenshtein_diff t t = .ok [] :=
  backtrack_diag t (fillMatrix t t) (utf8Len t + utf8Len t) (utf8Len t) []

/-- Claim C8 (refuted as stated): on text1 = "ba", text2 = "accb" the emitted
script records positions 1, 2, 1, 0 in emission order — a substitution at
text1 index 1 followed by an insertion at text2 index 2 — so the interleaved
sequence of recorded positions is not monotonically non-increasing. -/
theorem c8_positions_not_monotone :
    levenshtein_diff ['b', 'a'] ['a', 'c', 'c', 'b'] =
      .ok [Change.Substitution 'a' 'b' 1, Change.Insertion 'c' 2,
           Change.Insertion 'c' 1, Change.Substitution 'b' 'a' 0] ∧
    nonIncList (List.map posOf
      [Change.Substitution 'a' 'b' 1, Change.Insertion 'c' 2,
       Change.Insertion 'c' 1, Change.Substitution 'b' 'a' 0]) = false :=
  ⟨rfl, rfl⟩

/-- Claim C8 as amended (proved): the backtracker emits each kind of position
from the end toward the start — over any `Ok` script, the text1 positions
recorded by deletions and substitutions are strictly decreasing in emission
order, and the text2 positions recorded by insertions are strictly decreasing
in emission order — but the interleaving of the two position streams need not
be non-increasing. -/
theorem c8_amended_positions_decrease_per_kind (t1 t2 : List Char)
    (s : List Change) (h : levenshtein_diff t1 t2 = .ok s) :
    strictDecList (dsPos s) = true ∧ strictDecList (insPos s) = true := by
  obtain ⟨r, hs, _, hds, _, his, _⟩ :=
    backtrack_ok_structure t1 t2 (fillMatrix t1 t2) _ _ _ [] s h
  rw [hs]
  exact ⟨hds, his⟩

/-- Witness for the amended C8 at text1 = "abcd", text2 = "abefgh". -/
theorem c8_amended_positions_decrease_per_kind_witness :
    strictDecList (dsPos [Change.Insertion 'h' 5, Change.Insertion 'g' 4,
      Change.Substitution 'd' 'f' 3, Change.Substitution 'c' 'e' 2]) = true ∧
    strictDecList (insPos [Change.Insertion 'h' 5, Change.Insertion 'g' 4,
      Change.Substitution 'd' 'f' 3, Change.Substitution 'c' 'e' 2]) = true :=
  c8_amended_positions_decrease_per_kind ['a', 'b', 'c', 'd']
    ['a', 'b', 'e', 'f', 'g', 'h']
    [Change.Insertion 'h' 5, Change.Insertion 'g' 4,
     Change.Substitution 'd' 'f' 3, Change.Substitution 'c' 'e' 2] rfl

/-- Claim C9 (confirmed): a substitution is recorded only in the branch where
the two looked-up characters are distinct, so every `Substitution(c1, c2, p)`
in an `Ok` script has `c1 ≠ c2`. -/
theorem c9_substitution_chars_differ (t1 t2 : List Char) (s : List Change)
    (h : levenshtein_diff t1 t2 = .ok s) (c1 c2 : Char) (p : Nat)
    (hmem : Change.Substitution c1 c2 p ∈ s) : c1 ≠ c2 := by
  obtain ⟨r, hs, hops, _⟩ :=
    backtrack_ok_structure t1 t2 (fillMatrix t1 t2) _ _ _ [] s h
  rw [hs] at hmem
  exact (hops _ hmem).2

/-- Witness for C9 at text1 = "abcd", text2 = "abed". -/
theorem c9_substitution_chars_differ_witness : ('c' : Char) ≠ 'e' :=
  c9_substitution_chars_differ ['a', 'b', 'c', 'd'] ['a', 'b', 'e', 'd']
    [Change.Substitution 'c' 'e' 2] rfl 'c' 'e' 2 (by decide)

/-- Claim C10 (confirmed): every operation of an `Ok` script carries the
character that occurs at its recorded position — deletions and substitutions
carry the text1 character at their text1 index, insertions the text2 character
at their text2 index (so the position is a valid scalar index). -/
theorem c10_payloads_match_positions (t1 t2 : List Char) (s : List Change)
    (h : levenshtein_diff t1 t2 = .ok s) (op : Change) (hmem : op ∈ s) :
    opFaithful t1 t2 op := by
  obtain ⟨r, hs, hops, _⟩ :=
    backtrack_ok_structure t1 t2 (fillMatrix t1 t2) _ _ _ [] s h
  rw [hs] at hmem
  exact (hops op hmem).1

/-- Witness for C10 at text1 = "abcd", text2 = "abefgh". -/
theorem c10_payloads_match_positions_witness :
    opFaithful ['a', 'b', 'c', 'd'] ['a', 'b', 'e', 'f', 'g', 'h']
      (Change.Insertion 'h' 5) :=
  c10_payloads_match_positions ['a', 'b', 'c', 'd'] ['a', 'b', 'e', 'f', 'g', 'h']
    [Change.Insertion 'h' 5, Change.Insertion 'g' 4,
     Change.Substitution 'd' 'f' 3, Change.Substitution 'c' 'e' 2] rfl
    (Change.Insertion 'h' 5) (by decide)
